import Mathlib

/-!
Shallow embedding of the DBN training/inference orchestrator of
src/include/dll/dbn.inl (namespace dll, struct dbn).

Modelling conventions:
- Weights (C++ double) are modelled as exact rationals.
- The heterogeneous compile-time layer stack (std::tuple, index-driven
  template recursion) is modelled as a runtime list of a single Layer
  record carrying the capability surface the orchestrator uses:
  size queries, the pooling and pretrain_last traits, the serialized
  parameter block, and the activation functions (activate_one /
  activate_hidden as act, activate_visible as act_visible), each a
  function of the parameter block and the input vector.  These per-layer
  numeric operations are external collaborators of the orchestrator
  (out of scope per the spec), so they appear as abstract function fields.
- Template recursion on the layer index becomes structural recursion on
  the layer list; enable_if dispatch becomes pattern matching.
- cpp_assert is modelled as Except.error carrying the assertion message.
- prepare_output / prepare_one_output / prepare_one_input allocate
  buffers whose entries start at an unspecified initial value; that
  value is the prep_init field of the network.
-/

namespace Dll

/-- The numeric weight type of the network (C++ double), modelled exactly. -/
abbrev weight := ℚ

/-- One layer (RBM) of the stack: the capability surface used by dbn.inl.
act models activate_one / activate_hidden (visible to hidden), act_visible
models activate_visible (hidden back to visible); both take the layer
parameters first.  params is the content of the serialized parameter
block written by layer.store and read by layer.load.  batch_size is
get_batch_size(rbm). -/
structure Layer where
  input_size : Nat
  output_size : Nat
  is_pooling : Bool
  pretrain_last : Bool
  batch_size : Nat
  params : List weight
  act : List weight → List weight → List weight
  act_visible : List weight → List weight → List weight

/-- The DBN: ordered layer stack plus configuration and classifier state.
convert_sample models the layer-0 input conversion (convert_input /
convert_sample / input_one_t construction), applied element-wise.
BatchSize is desc::BatchSize, the big-batch multiplier. -/
structure dbn where
  tuples : List Layer
  convert_sample : List weight → List weight
  BatchSize : Nat := 1
  save_memory : Bool := false
  concatenate : Bool := false
  scale : Bool := false
  prep_init : weight := 0
  svm_loaded : Bool := false
  svm_model : List weight := []
  learning_rate : weight := 0.77
  initial_momentum : weight := 0.5
  final_momentum : weight := 0.9
  final_momentum_epoch : weight := 6
  weight_cost : weight := 0.0002
  momentum : weight := 0

/-- Number of layers of the stack (dbn::layers). -/
def layers (net : dbn) : Nat := net.tuples.length

/-- full_output_size(): the sum of every layer output width. -/
def full_output_size (net : dbn) : Nat := (net.tuples.map Layer.output_size).sum

/-- The forward activation chain: activation_probabilities<I,S> chains
activate_one through the given layers, each output feeding the next input. -/
def activate_chain (ls : List Layer) (v : List weight) : List weight :=
  ls.foldl (fun u l => l.act l.params u) v

/-- activation_probabilities(sample): convert the raw sample via layer 0,
then chain activate_one through all layers; the result is the last layer
output. -/
def activation_probabilities (net : dbn) (s : List weight) : List weight :=
  activate_chain net.tuples (net.convert_sample s)

/-- full_activation_probabilities<I>: every layer output of the chain, in
stack order.  The source writes each output into one result buffer at a
running index; the segments are modelled as a list, joined below. -/
def full_activation_segs : List Layer → List weight → List (List weight)
  | [], _ => []
  | l :: rest, v =>
    l.act l.params v :: full_activation_segs rest (l.act l.params v)

/-- full_activation_probabilities(sample): the concatenation of every layer
output, in stack order, starting from the converted sample. -/
def full_activation_probabilities (net : dbn) (s : List weight) : List weight :=
  (full_activation_segs net.tuples (net.convert_sample s)).flatten

/-- get_final_activation_probabilities: full concatenation when the
concatenate trait is set, otherwise only the last layer output. -/
def get_final_activation_probabilities (net : dbn) (s : List weight) : List weight :=
  if net.concatenate then full_activation_probabilities net s
  else activation_probabilities net s

/-- Loop of std::max_element: keep the current best index unless a later
element is strictly greater (so ties keep the first occurrence). -/
def max_element_index_go (best : Nat) (bv : weight) (i : Nat) : List weight → Nat
  | [] => best
  | y :: ys =>
    if bv < y then max_element_index_go i y (i + 1) ys
    else max_element_index_go best bv (i + 1) ys

/-- std::distance(begin, std::max_element(begin, end)): index of the first
maximal element; 0 on the empty list (max_element returns end = begin). -/
def max_element_index : List weight → Nat
  | [] => 0
  | x :: xs => max_element_index_go 0 x 1 xs

/-- predict_label(result): index of the first maximal entry. -/
def predict_label (v : List weight) : Nat := max_element_index v

/-- predict(sample): predict_label over activation_probabilities. -/
def predict (net : dbn) (s : List weight) : Nat :=
  predict_label (activation_probabilities net s)

/-! ## Persistence (store / load) -/

/-- One item of the persisted stream.  layer_block is the serialized
parameter block one non-pooling layer writes with layer.store; svm_block
is the classifier segment.
Modelled from the spec: svm_store / svm_load live in svm_common.hpp (not
under src); per the spec the trained classifier block is appended after
the last layer block, and nothing of it when no model was trained, so the
segment carries the model exactly when one is loaded. -/
inductive StoreItem where
  | layer_block (ps : List weight) : StoreItem
  | svm_block (m : Option (List weight)) : StoreItem
deriving DecidableEq

/-- store_layer: a pooling layer writes nothing; any other layer writes its
serialized parameter block. -/
def store_layer (l : Layer) : List StoreItem :=
  if l.is_pooling then [] else [StoreItem.layer_block l.params]

/-- dbn::store(os): each layer in stack order via store_layer, then the
classifier segment (svm_store). -/
def store (net : dbn) : List StoreItem :=
  (net.tuples.map store_layer).flatten
    ++ [StoreItem.svm_block (if net.svm_loaded then some net.svm_model else none)]

/-- load_layer applied across the stack: pooling layers read nothing, any
other layer reads the next parameter block from the stream.  Returns the
reloaded layers and the rest of the stream, or none when the stream does
not have the expected shape. -/
def load_layers : List Layer → List StoreItem → Option (List Layer × List StoreItem)
  | [], st => some ([], st)
  | l :: rest, st =>
    if l.is_pooling then
      match load_layers rest st with
      | some (ls, st2) => some (l :: ls, st2)
      | none => none
    else
      match st with
      | StoreItem.layer_block ps :: st1 =>
        match load_layers rest st1 with
        | some (ls, st2) => some ({ l with params := ps } :: ls, st2)
        | none => none
      | _ => none

/-- dbn::load(is): read every layer block in stack order, then the
classifier segment (svm_load), into the given identically-shaped network. -/
def load (net : dbn) (st : List StoreItem) : Option dbn :=
  match load_layers net.tuples st with
  | some (ls, StoreItem.svm_block m :: _) =>
    some { net with tuples := ls, svm_loaded := m.isSome,
                    svm_model := m.getD net.svm_model }
  | _ => none

/-- An identically-shaped network whose layer parameters were replaced:
same sizes, traits, activation functions and configuration, arbitrary
parameter blocks. -/
def replace_params (net : dbn) (ps : List (List weight)) : dbn :=
  { net with tuples := List.zipWith (fun l p => { l with params := p }) net.tuples ps }

/-! ## Unsupervised pretraining, full-materialization mode (pretrain_layer)

What an individual layer learns from its training data is the external
learning rule; the orchestrator determines which layers are trained and
which data stream each one receives.  The traces below record exactly
that: the pairs (layer index, training input handed to that layer). -/

/-- train_next<I+1> as a function of the layers after the current one:
true below the last layer, the pretrain_last trait at the last layer,
false past the end. -/
def train_next_cont : List Layer → Bool
  | [] => false
  | [l] => l.pretrain_last
  | _ :: _ :: _ => true

/-- pretrain_layer<I>: train the layer at the current index on the current
input, and if train_next<I+1> holds compute every activation through this
layer (the next layer input) and recurse.  The trace records, per trained
layer, the full materialized input matrix handed to rbm.train. -/
def pretrain_layer_go (i : Nat) (input : List (List weight)) :
    List Layer → List (Nat × List (List weight))
  | [] => []
  | l :: rest =>
    (i, input) ::
      (if train_next_cont rest then
        pretrain_layer_go (i + 1) (input.map (l.act l.params)) rest
      else [])

/-- pretrain_layer<0> after the one-time input conversion done in
pretrain (input_converter over layer 0). -/
def pretrain_layer_trace (net : dbn) (data : List (List weight)) :
    List (Nat × List (List weight)) :=
  pretrain_layer_go 0 (data.map net.convert_sample) net.tuples

/-! ## Unsupervised pretraining, batched / memory-saving mode
(pretrain_layer_batch) -/

/-- batch_layer_ignore<I> for I < layers: the layer is skipped when it is
a pooling layer or its type is not marked pretrain_last. -/
def batch_layer_ignore (l : Layer) : Bool := l.is_pooling || !l.pretrain_last

/-- The big-batch size used for a layer: desc::BatchSize *
get_batch_size(rbm). -/
def big_batch_size (net : dbn) (l : Layer) : Nat := net.BatchSize * l.batch_size

/-- Structural worker for chunks: the fuel starts at the stream length and
each slice consumes at least one element, so it never runs out. -/
def chunks_go (k : Nat) : Nat → List (List weight) → List (List (List weight))
  | _, [] => []
  | 0, _ :: _ => []
  | fuel + 1, x :: xs => (x :: xs.take (k - 1)) :: chunks_go k fuel (xs.drop (k - 1))

/-- Successive big-batch slices of the sample stream (the inner while loop
advancing the iterator by at most k).  Modelled for k >= 1 (with k = 0 the
source loop would not terminate). -/
def chunks (k : Nat) (data : List (List weight)) : List (List (List weight)) :=
  chunks_go k data.length data

/-- One epoch of the big-batch loop of pretrain_layer_batch for I > 0:
for each raw slice, convert it, chain activations through the layers
below into the front of the reused activated_input buffer, then hand the
WHOLE buffer (big_batch_size rows, including any stale tail rows from the
previous slice) to train_sub.  Returns the final buffer and the
concatenation of all rows consumed by train_sub this epoch. -/
def batch_epoch_go (chain : List weight → List weight) :
    List (List weight) → List (List (List weight)) →
    List (List weight) × List (List weight)
  | buf, [] => (buf, [])
  | buf, c :: cs =>
    let rows := c.map chain
    let buf1 := rows ++ buf.drop rows.length
    let r := batch_epoch_go chain buf1 cs
    (r.1, buf1 ++ r.2)

/-- The epoch loop: the activated_input buffer is allocated once before
the epoch loop and reused across epochs. -/
def batch_epochs_go (chain : List weight → List weight)
    (cks : List (List (List weight))) :
    Nat → List (List weight) → List (List weight)
  | 0, _ => []
  | e + 1, buf =>
    let r := batch_epoch_go chain buf cks
    r.2 ++ batch_epochs_go chain cks e r.1

/-- Rows consumed by train_sub while pretraining layer 0 in batch mode:
each big batch is converted and handed to train_sub exactly as sliced,
every epoch. -/
def batch_consumed_zero (net : dbn) (l : Layer) (data : List (List weight))
    (epochs : Nat) : List (List weight) :=
  (List.replicate epochs
    (((chunks (big_batch_size net l) data).map (fun c => c.map net.convert_sample)).flatten)).flatten

/-- Rows consumed by train_sub while pretraining the layer at index i > 0
in batch mode: activated_input := layer<i-1>.prepare_output(big_batch_size)
(big_batch_size rows of width output_size(i-1), entries prep_init), then
the epoch loop above; every converted slice is propagated through layers
0..i-1 by the activation-probability chain. -/
def batch_consumed_upper (net : dbn) (i : Nat) (l : Layer)
    (data : List (List weight)) (epochs : Nat) : List (List weight) :=
  let big := big_batch_size net l
  let prev_out := ((net.tuples.get? (i - 1)).map Layer.output_size).getD 0
  let buf0 := List.replicate big (List.replicate prev_out net.prep_init)
  batch_epochs_go
    (fun s => activate_chain (net.tuples.take i) (net.convert_sample s))
    (chunks big data) epochs buf0

/-- pretrain_layer_batch<0..>: layer 0 is always trained from the raw
stream; a later layer is skipped exactly when batch_layer_ignore holds,
otherwise trained on the per-batch recomputed activations; recursion
stops past the last index.  The trace records (index, rows consumed by
that layer trainer across all epochs). -/
def pretrain_layer_batch_go (net : dbn) (data : List (List weight))
    (epochs : Nat) : Nat → List Layer → List (Nat × List (List weight))
  | _, [] => []
  | i, l :: rest =>
    if i = 0 then
      (0, batch_consumed_zero net l data epochs) ::
        pretrain_layer_batch_go net data epochs 1 rest
    else if batch_layer_ignore l then
      pretrain_layer_batch_go net data epochs (i + 1) rest
    else
      (i, batch_consumed_upper net i l data epochs) ::
        pretrain_layer_batch_go net data epochs (i + 1) rest

/-- The batch-mode pretraining trace from layer 0. -/
def pretrain_layer_batch_trace (net : dbn) (data : List (List weight))
    (epochs : Nat) : List (Nat × List (List weight)) :=
  pretrain_layer_batch_go net data epochs 0 net.tuples

/-- pretrain(first, last, max_epochs): batch mode when the save_memory
trait is set, full-materialization mode otherwise.  Both traces list
(layer index, training rows handed to that layer); in full mode the
matrix is handed once to rbm.train together with max_epochs, in batch
mode the rows are those consumed by train_sub across all epochs (so with
epochs = 1 the two are directly comparable). -/
def pretrain_trace (net : dbn) (data : List (List weight)) (epochs : Nat) :
    List (Nat × List (List weight)) :=
  if net.save_memory then pretrain_layer_batch_trace net data epochs
  else pretrain_layer_trace net data

/-- Control-flow events of batch-mode pretraining. -/
inductive BatchEvent where
  | trained (i : Nat) : BatchEvent
  | skipped (i : Nat) : BatchEvent
deriving DecidableEq

/-- The index an event talks about. -/
def BatchEvent.idx : BatchEvent → Nat
  | trained i => i
  | skipped i => i

/-- The overload-dispatch skeleton of pretrain_layer_batch: layer 0 goes
through the dedicated I = 0 overload (trained); at a later index the
batch_layer_ignore overload only advances to the next index (skipped,
no training and no activation recomputation there), otherwise the layer
is trained; the I = layers overload stops. -/
def pretrain_layer_batch_ctl_go : Nat → List Layer → List BatchEvent
  | _, [] => []
  | i, l :: rest =>
    if i = 0 then BatchEvent.trained 0 :: pretrain_layer_batch_ctl_go 1 rest
    else if batch_layer_ignore l then
      BatchEvent.skipped i :: pretrain_layer_batch_ctl_go (i + 1) rest
    else BatchEvent.trained i :: pretrain_layer_batch_ctl_go (i + 1) rest

/-- The control trace of pretrain_layer_batch<0>. -/
def pretrain_layer_batch_ctl (net : dbn) : List BatchEvent :=
  pretrain_layer_batch_ctl_go 0 net.tuples

/-! ## Label-augmented supervised training (train_with_labels) -/

/-- Element-wise overwrite of the front of a buffer, leaving its tail:
the nested copy loop big_next_a[i][j] = next_a[i][j].  (The source indexes
the buffer, so the copied data is assumed to fit; past the buffer end the
C++ would be out of bounds.) -/
def overwrite : List weight → List weight → List weight
  | base, [] => base
  | [], _ :: _ => []
  | _ :: bs, s :: ss => s :: overwrite bs ss

/-- The one-hot loop: for l in [0, labels),
big_next_a[i][output_size + l] = (label == l ? 1.0 : 0.0). -/
def write_one_hot (out_size label_count lab : Nat) (row : List weight) : List weight :=
  (List.range label_count).foldl
    (fun r l => r.set (out_size + l) (if lab = l then (1 : weight) else 0)) row

/-- The label loop of train_with_labels: row i of the enlarged buffer gets
the one-hot encoding of label i.  It walks the label iterator, so it stops
with the rows or the labels, whichever run out first (out of bounds in the
C++ when there are more labels than rows). -/
def apply_labels (out_size label_count : Nat) :
    List (List weight) → List Nat → List (List weight)
  | rows, [] => rows
  | [], _ :: _ => []
  | r :: rs, lab :: ls =>
    write_one_hot out_size label_count lab r :: apply_labels out_size label_count rs ls

/-- The enlarged buffer built at the second-to-last layer: one row per
sample of width output_size + labels (prepare_output(n, is_last, labels),
entries starting at prep_init), the computed activation copied into the
front of each row, then the one-hot label loop. -/
def big_next_a (q0 : weight) (label_count out_size : Nat)
    (next_a : List (List weight)) (labs : List Nat) : List (List weight) :=
  apply_labels out_size label_count
    (next_a.map (fun a => overwrite (List.replicate (out_size + label_count) q0) a))
    labs

/-- train_with_labels<I>: train the layer at I on its current input; below
the last layer compute the activations (activate_many); at the
second-to-last layer enlarge them with the one-hot labels (consuming the
label iterator) before recursing, otherwise recurse with the plain
activations.  The trace lists the training input matrix of each layer in
stack order. -/
def train_with_labels_go (q0 : weight) (label_count : Nat) :
    List Layer → List (List weight) → List Nat → List (List (List weight))
  | [], _, _ => []
  | [_], input, _ => [input]
  | [l, l2], input, labs =>
    input ::
      train_with_labels_go q0 label_count [l2]
        (big_next_a q0 label_count l.output_size
          (input.map (l.act l.params)) labs)
        []
  | l :: l2 :: l3 :: rest, input, labs =>
    input ::
      train_with_labels_go q0 label_count (l2 :: l3 :: rest)
        (input.map (l.act l.params)) labs

/-- input_size of the last layer (layer<layers - 1>). -/
def input_size_last (net : dbn) : Nat :=
  ((net.tuples.getLast?).map Layer.input_size).getD 0

/-- output_size of the second-to-last layer (layer<layers - 2>). -/
def output_size_snd_last (net : dbn) : Nat :=
  ((net.tuples.get? (net.tuples.length - 2)).map Layer.output_size).getD 0

/-- train_with_labels(samples, labels, label_count, max_epochs): the two
cpp_assert preconditions, then the one-time layer-0 conversion and the
per-layer recursion.  The result is the trace of per-layer training
inputs; an assertion violation is the fatal error with its message. -/
def train_with_labels (net : dbn) (samples : List (List weight))
    (labs : List Nat) (label_count _max_epochs : Nat) :
    Except String (List (List (List weight))) :=
  if samples.length ≠ labs.length then
    Except.error "There must be the same number of values than labels"
  else if input_size_last net ≠ output_size_snd_last net + label_count then
    Except.error "There is no room for the labels units"
  else
    Except.ok (train_with_labels_go net.prep_init label_count net.tuples
      (samples.map net.convert_sample) labs)

/-! ## Label prediction (predict_labels) -/

/-- The enlarged single-sample buffer built at the second-to-last layer of
predict_labels: prepare_one_output(is_last, labels) (width output_size +
labels, entries prep_init), the hidden activation copied into the front,
then std::fill from output_size to the end with the constant 0.1. -/
def predict_big_next_a (q0 : weight) (label_count out_size : Nat)
    (a : List weight) : List weight :=
  (overwrite (List.replicate (out_size + label_count) q0) a).take out_size
    ++ List.replicate
      ((overwrite (List.replicate (out_size + label_count) q0) a).length - out_size)
      (0.1 : weight)

/-- predict_labels<I>: activate hidden at every layer; at the last layer
additionally reconstruct the visible vector from the hidden state
(activate_visible) and return it; at the second-to-last layer recurse
with the 0.1-padded enlarged buffer. -/
def predict_labels_go (q0 : weight) (label_count : Nat) :
    List Layer → List weight → List weight
  | [], _ => []
  | [l], v => l.act_visible l.params (l.act l.params v)
  | [l, l2], v =>
    predict_labels_go q0 label_count [l2]
      (predict_big_next_a q0 label_count l.output_size (l.act l.params v))
  | l :: l2 :: l3 :: rest, v =>
    predict_labels_go q0 label_count (l2 :: l3 :: rest) (l.act l.params v)

/-- predict_labels(item, labels): the cpp_assert width precondition, the
recursion from layer 0 on the converted item, then
distance(prev(end, labels), max_element(prev(end, labels), end)): the
first-occurrence argmax over only the trailing labels entries of the
reconstruction, as an index relative to that segment. -/
def predict_labels (net : dbn) (s : List weight) (label_count : Nat) :
    Except String Nat :=
  if input_size_last net ≠ output_size_snd_last net + label_count then
    Except.error "There is no room for the labels units"
  else
    Except.ok
      (max_element_index
        ((predict_labels_go net.prep_init label_count net.tuples
            (net.convert_sample s)).drop
          ((predict_labels_go net.prep_init label_count net.tuples
              (net.convert_sample s)).length - label_count)))

/-! ## SVM classifier bridge -/

/-- The classifier state the network owns: the stored problem, the stored
model and the model-loaded flag (fields problem, svm_model, svm_loaded of
dbn; P and M are the libsvm problem and model types). -/
structure svm_state (P M : Type) where
  problem : P
  model : M
  svm_loaded : Bool

/-- The external libsvm collaborators used by the bridge:
svm::make_problem, svm::check, svm::train and default_svm_parameters
(V is the svm_parameter type). -/
structure svm_ops (P M V : Type) where
  mk_problem : List (List weight) → List Nat → Bool → P
  check : P → V → Bool
  train : P → V → M
  default_parameters : V

/-- make_problem(training_data, labels, scale): collect the final
activation probabilities of every sample into the feature matrix and
overwrite the stored problem with the freshly constructed one. -/
def make_problem {P M V : Type} (net : dbn) (ops : svm_ops P M V)
    (samples : List (List weight)) (labs : List Nat)
    (st : svm_state P M) : svm_state P M :=
  { st with
      problem := ops.mk_problem
        (samples.map (get_final_activation_probabilities net)) labs net.scale }

/-- svm_train(training_data, labels, parameters): make_problem first (this
assigns the stored problem), then svm::check; on check failure return
false with the state as make_problem left it; otherwise train, store the
model, set svm_loaded and return true. -/
def svm_train {P M V : Type} (net : dbn) (ops : svm_ops P M V)
    (samples : List (List weight)) (labs : List Nat) (parameters : V)
    (st : svm_state P M) : Bool × svm_state P M :=
  if ops.check (make_problem net ops samples labs st).problem parameters then
    (true,
      { make_problem net ops samples labs st with
          model := ops.train (make_problem net ops samples labs st).problem parameters,
          svm_loaded := true })
  else (false, make_problem net ops samples labs st)

/-- svm_grid_search(training_data, labels, n_fold, grid): make_problem
first, then svm::check with the default parameters; on failure return
false; on success run the external rbf_grid_search (which touches none of
the stored state and does not set svm_loaded) and return true. -/
def svm_grid_search {P M V : Type} (net : dbn) (ops : svm_ops P M V)
    (samples : List (List weight)) (labs : List Nat) (_n_fold : Nat)
    (st : svm_state P M) : Bool × svm_state P M :=
  if ops.check (make_problem net ops samples labs st).problem ops.default_parameters then
    (true, make_problem net ops samples labs st)
  else (false, make_problem net ops samples labs st)

/-! ## Concrete instances used as test inputs -/

/-- A pass-through, non-pooling layer marked pretrain_last, with the given
sizes. -/
def layerId (insz outsz : Nat) : Layer :=
  { input_size := insz, output_size := outsz, is_pooling := false,
    pretrain_last := true, batch_size := 1, params := [],
    act := fun _ v => v, act_visible := fun _ v => v }

/-- Two pass-through 1-wide layers, big batches of 2 samples, batch mode. -/
def netB1 : dbn :=
  { tuples := [layerId 1 1, layerId 1 1], convert_sample := id,
    BatchSize := 2, save_memory := true }

/-- The same network in full-materialization mode. -/
def netF1 : dbn := { netB1 with save_memory := false }

/-- Three samples: one sample more than a multiple of the big batch. -/
def dataD1 : List (List weight) := [[1], [2], [3]]

/-- A non-pooling middle layer whose type is not marked pretrain_last. -/
def layerMid2 : Layer := { layerId 1 1 with pretrain_last := false }

/-- Three-layer batch-mode network with layerMid2 in the middle. -/
def netB2 : dbn :=
  { tuples := [layerId 1 1, layerMid2, layerId 1 1], convert_sample := id,
    save_memory := true }

/-- Second-to-last layer for the label-augmentation test: 2 output units,
constant activation [4, 5]. -/
def layerSnd3 : Layer :=
  { input_size := 1, output_size := 2, is_pooling := false,
    pretrain_last := true, batch_size := 1, params := [],
    act := fun _ _ => [4, 5], act_visible := fun _ v => v }

/-- Last layer sized for 2 + 3 label units. -/
def layerLast3 : Layer := layerId 5 1

/-- Two-layer network for the train_with_labels tests. -/
def netT3 : dbn := { tuples := [layerSnd3, layerLast3], convert_sample := id }

/-- Second-to-last layer for the predict_labels tests: 1 output unit,
constant hidden activation [2]. -/
def layerSnd5 : Layer :=
  { input_size := 1, output_size := 1, is_pooling := false,
    pretrain_last := true, batch_size := 1, params := [],
    act := fun _ _ => [2], act_visible := fun _ v => v }

/-- Last layer for predict_labels: 1 + 2 label units of input, hidden sum,
fixed reconstruction [5, 1, 7]. -/
def layerLast5 : Layer :=
  { input_size := 3, output_size := 1, is_pooling := false,
    pretrain_last := true, batch_size := 1, params := [],
    act := fun _ v => [v.sum], act_visible := fun _ _ => [5, 1, 7] }

/-- Two-layer network for the predict_labels tests. -/
def netP5 : dbn := { tuples := [layerSnd5, layerLast5], convert_sample := id }

/-- Non-pooling layer whose activation depends on its parameter block. -/
def layerStore6 : Layer :=
  { input_size := 1, output_size := 2, is_pooling := false,
    pretrain_last := true, batch_size := 1, params := [3],
    act := fun p v => p ++ v, act_visible := fun _ v => v }

/-- Pooling layer: parameter-free, its activation ignores the block. -/
def layerPool6 : Layer :=
  { input_size := 2, output_size := 2, is_pooling := true,
    pretrain_last := false, batch_size := 1, params := [],
    act := fun _ v => v, act_visible := fun _ v => v }

/-- Network with a trained classifier model for the round-trip test. -/
def netS6 : dbn :=
  { tuples := [layerStore6, layerPool6], convert_sample := id,
    svm_loaded := true, svm_model := [7] }

/-- Replacement parameter blocks for the reload target of netS6. -/
def psS6 : List (List weight) := [[9], [8]]

/-- One-layer network with the activation vector of the predict example. -/
def netA7 : dbn :=
  { tuples := [{ layerId 3 3 with act := fun _ _ => [0.1, 0.9, 0.3] }],
    convert_sample := id }

/-- Two-layer network whose activations have their declared widths. -/
def netW8 : dbn :=
  { tuples :=
      [{ layerId 1 1 with act := fun _ v => [v.sum] },
       { layerId 1 2 with act := fun _ v => [v.sum, 0] }],
    convert_sample := id }

/-- One-layer network for the classifier-bridge tests. -/
def netV9 : dbn := { tuples := [layerId 1 1], convert_sample := id }

/-- Classifier collaborators whose parameter check always fails. -/
def opsV9 : svm_ops Nat Nat Unit :=
  { mk_problem := fun _ _ _ => 1, check := fun _ _ => false,
    train := fun _ _ => 9, default_parameters := () }

/-- Initial classifier state before the failing call. -/
def stV9 : svm_state Nat Nat := { problem := 0, model := 5, svm_loaded := false }

/-! ## Theorems -/

/-- Claim C1: batched/memory-saving pretraining and full-materialization
pretraining do NOT yield matching training for every layer.  On netB1 /
netF1 (identical two-layer network, three samples, big batches of two,
one epoch, identity activations) layer 1 is trained on four rows in
batch mode — the reused activated_input buffer pads the final short
batch with the stale activation [2] of the previous batch — while full
mode trains it on exactly the three sample activations, so any
input-sensitive learning rule produces different final parameters. -/
theorem batch_mode_diverges_from_full_mode :
    pretrain_trace netB1 dataD1 1 =
      [(0, [[1], [2], [3]]), (1, [[1], [2], [3], [2]])] ∧
    pretrain_trace netF1 dataD1 1 =
      [(0, [[1], [2], [3]]), (1, [[1], [2], [3]])] ∧
    pretrain_trace netB1 dataD1 1 ≠ pretrain_trace netF1 dataD1 1 := by
  refine ⟨by decide, by decide, by decide⟩

/-- Claim C2 counterexample: in netB2, index 1 holds a non-pooling layer
that is not marked pretrain_last; batch-mode pretraining skips it, so
"skipped iff pooling" is false there. -/
theorem batch_skip_not_only_pooling :
    ¬ ((BatchEvent.skipped 1 ∈ pretrain_layer_batch_ctl netB2) ↔
        ((netB2.tuples.get? 1).map Layer.is_pooling).getD false = true) := by
  decide

/-- Unfolding of the batch dispatch at index 0. -/
theorem ctl_go_zero (l : Layer) (rest : List Layer) :
    pretrain_layer_batch_ctl_go 0 (l :: rest) =
      BatchEvent.trained 0 :: pretrain_layer_batch_ctl_go 1 rest := rfl

/-- Unfolding of the batch dispatch at a positive index on an ignored
layer. -/
theorem ctl_go_pos_ignore (i0 : Nat) (h : i0 ≠ 0) (l : Layer)
    (hig : batch_layer_ignore l = true) (rest : List Layer) :
    pretrain_layer_batch_ctl_go i0 (l :: rest) =
      BatchEvent.skipped i0 :: pretrain_layer_batch_ctl_go (i0 + 1) rest := by
  simp [pretrain_layer_batch_ctl_go, h, hig]

/-- Unfolding of the batch dispatch at a positive index on a trained
layer. -/
theorem ctl_go_pos_train (i0 : Nat) (h : i0 ≠ 0) (l : Layer)
    (hig : batch_layer_ignore l = false) (rest : List Layer) :
    pretrain_layer_batch_ctl_go i0 (l :: rest) =
      BatchEvent.trained i0 :: pretrain_layer_batch_ctl_go (i0 + 1) rest := by
  simp [pretrain_layer_batch_ctl_go, h, hig]

/-- Membership in the batch dispatch trace started at a positive index is
exactly described by batch_layer_ignore at the corresponding layer. -/
theorem mem_ctl_go_iff : ∀ (ls : List Layer) (i0 : Nat), 0 < i0 →
    ∀ ev : BatchEvent,
    (ev ∈ pretrain_layer_batch_ctl_go i0 ls ↔
      ∃ k l, ls.get? k = some l ∧
        ((ev = BatchEvent.skipped (i0 + k) ∧ batch_layer_ignore l = true) ∨
         (ev = BatchEvent.trained (i0 + k) ∧ batch_layer_ignore l = false))) := by
  intro ls
  induction ls with
  | nil =>
    intro i0 h0 ev
    simp [pretrain_layer_batch_ctl_go]
  | cons l rest ih =>
    intro i0 h0 ev
    have hne : i0 ≠ 0 := Nat.pos_iff_ne_zero.mp h0
    by_cases hig : batch_layer_ignore l = true
    · rw [ctl_go_pos_ignore i0 hne l hig rest]
      simp only [List.mem_cons]
      rw [ih (i0 + 1) (Nat.succ_pos i0) ev]
      constructor
      · rintro (h | ⟨k, l2, hget, hcase⟩)
        · exact ⟨0, l, rfl, Or.inl ⟨by simpa using h, hig⟩⟩
        · refine ⟨k + 1, l2, by simpa using hget, ?_⟩
          have : i0 + 1 + k = i0 + (k + 1) := by omega
          rw [this] at hcase
          exact hcase
      · rintro ⟨k, l2, hget, hcase⟩
        cases k with
        | zero =>
          have hl2 : l2 = l := by simpa using hget.symm
          subst hl2
          rcases hcase with ⟨hev, _⟩ | ⟨_, hfalse⟩
          · exact Or.inl (by simpa using hev)
          · rw [hig] at hfalse; cases hfalse
        | succ k2 =>
          refine Or.inr ⟨k2, l2, by simpa using hget, ?_⟩
          have : i0 + (k2 + 1) = i0 + 1 + k2 := by omega
          rw [this] at hcase
          exact hcase
    · have hig2 : batch_layer_ignore l = false := by
        simpa using hig
      rw [ctl_go_pos_train i0 hne l hig2 rest]
      simp only [List.mem_cons]
      rw [ih (i0 + 1) (Nat.succ_pos i0) ev]
      constructor
      · rintro (h | ⟨k, l2, hget, hcase⟩)
        · exact ⟨0, l, rfl, Or.inr ⟨by simpa using h, hig2⟩⟩
        · refine ⟨k + 1, l2, by simpa using hget, ?_⟩
          have : i0 + 1 + k = i0 + (k + 1) := by omega
          rw [this] at hcase
          exact hcase
      · rintro ⟨k, l2, hget, hcase⟩
        cases k with
        | zero =>
          have hl2 : l2 = l := by simpa using hget.symm
          subst hl2
          rcases hcase with ⟨_, htrue⟩ | ⟨hev, _⟩
          · rw [hig2] at htrue; cases htrue
          · exact Or.inl (by simpa using hev)
        | succ k2 =>
          refine Or.inr ⟨k2, l2, by simpa using hget, ?_⟩
          have : i0 + (k2 + 1) = i0 + 1 + k2 := by omega
          rw [this] at hcase
          exact hcase

/-- Every event of the batch dispatch trace talks about an index below the
start index plus the number of remaining layers. -/
theorem ctl_go_idx_lt : ∀ (ls : List Layer) (i0 : Nat) (ev : BatchEvent),
    ev ∈ pretrain_layer_batch_ctl_go i0 ls → ev.idx < i0 + ls.length := by
  intro ls
  induction ls with
  | nil =>
    intro i0 ev h
    simp [pretrain_layer_batch_ctl_go] at h
  | cons l rest ih =>
    intro i0 ev h
    by_cases h0 : i0 = 0
    · subst h0
      rw [ctl_go_zero l rest] at h
      rw [List.mem_cons] at h
      rcases h with h | h
      · subst h; simp [BatchEvent.idx]
      · have := ih 1 ev h
        simp only [List.length_cons]
        omega
    · by_cases hig : batch_layer_ignore l = true
      · rw [ctl_go_pos_ignore i0 h0 l hig rest, List.mem_cons] at h
        rcases h with h | h
        · subst h; simp only [BatchEvent.idx, List.length_cons]; omega
        · have := ih (i0 + 1) ev h
          simp only [List.length_cons]
          omega
      · have hig2 : batch_layer_ignore l = false := by simpa using hig
        rw [ctl_go_pos_train i0 h0 l hig2 rest, List.mem_cons] at h
        rcases h with h | h
        · subst h; simp only [BatchEvent.idx, List.length_cons]; omega
        · have := ih (i0 + 1) ev h
          simp only [List.length_cons]
          omega

/-- Claim C2 (amended): in batched pretraining, a layer at index
0 < I < layers is skipped iff it is a pooling layer OR its type is not
marked pretrain_last (batch_layer_ignore); it is trained iff it is
neither; and the recursion never produces an event at or past the layer
count. -/
theorem batch_skip_iff_ignore (net : dbn) (i : Nat) (l : Layer)
    (h0 : 0 < i) (hl : net.tuples.get? i = some l) :
    ((BatchEvent.skipped i ∈ pretrain_layer_batch_ctl net) ↔
      batch_layer_ignore l = true) ∧
    ((BatchEvent.trained i ∈ pretrain_layer_batch_ctl net) ↔
      batch_layer_ignore l = false) ∧
    (∀ ev ∈ pretrain_layer_batch_ctl net, ev.idx < layers net) := by
  obtain ⟨t0, rest, hts⟩ : ∃ t0 rest, net.tuples = t0 :: rest := by
    cases hts : net.tuples with
    | nil => rw [hts] at hl; simp at hl
    | cons a b => exact ⟨a, b, rfl⟩
  have hrest : rest.get? (i - 1) = some l := by
    rw [hts] at hl
    cases i with
    | zero => omega
    | succ i2 => simpa using hl
  have hhead : pretrain_layer_batch_ctl net =
      BatchEvent.trained 0 :: pretrain_layer_batch_ctl_go 1 rest := by
    rw [pretrain_layer_batch_ctl, hts]
    simp [pretrain_layer_batch_ctl_go]
  refine ⟨?_, ?_, ?_⟩
  · rw [hhead]
    simp only [List.mem_cons]
    rw [mem_ctl_go_iff rest 1 Nat.one_pos]
    constructor
    · rintro (h | ⟨k, l2, hget, hcase⟩)
      · cases h
      · rcases hcase with ⟨hev, htrue⟩ | ⟨hev, _⟩
        · have hk : i = 1 + k := by simpa using hev
          have : l2 = l := by
            rw [hk] at hrest
            have : (1 : Nat) + k - 1 = k := by omega
            rw [this] at hrest
            rw [hget] at hrest
            simpa using hrest
          subst this
          exact htrue
        · cases hev
    · intro hig
      refine Or.inr ⟨i - 1, l, hrest, Or.inl ⟨?_, hig⟩⟩
      have : 1 + (i - 1) = i := by omega
      rw [this]
  · rw [hhead]
    simp only [List.mem_cons]
    rw [mem_ctl_go_iff rest 1 Nat.one_pos]
    constructor
    · rintro (h | ⟨k, l2, hget, hcase⟩)
      · have : i = 0 := by simpa using h
        omega
      · rcases hcase with ⟨hev, _⟩ | ⟨hev, hfalse⟩
        · cases hev
        · have hk : i = 1 + k := by simpa using hev
          have : l2 = l := by
            rw [hk] at hrest
            have : (1 : Nat) + k - 1 = k := by omega
            rw [this] at hrest
            rw [hget] at hrest
            simpa using hrest
          subst this
          exact hfalse
    · intro hig
      refine Or.inr ⟨i - 1, l, hrest, Or.inr ⟨?_, hig⟩⟩
      have : 1 + (i - 1) = i := by omega
      rw [this]
  · intro ev hev
    have := ctl_go_idx_lt net.tuples 0 ev hev
    simpa [layers] using this

/-- Witness for the amended claim C2 at netB2, index 1. -/
theorem batch_skip_iff_ignore_witness :
    (0 < 1 ∧ netB2.tuples.get? 1 = some layerMid2) ∧
    (((BatchEvent.skipped 1 ∈ pretrain_layer_batch_ctl netB2) ↔
        batch_layer_ignore layerMid2 = true) ∧
      ((BatchEvent.trained 1 ∈ pretrain_layer_batch_ctl netB2) ↔
        batch_layer_ignore layerMid2 = false) ∧
      (∀ ev ∈ pretrain_layer_batch_ctl netB2, ev.idx < layers netB2)) :=
  ⟨⟨Nat.one_pos, rfl⟩, batch_skip_iff_ignore netB2 1 layerMid2 Nat.one_pos rfl⟩

/-- Claim C4: train_with_labels demands that the sample count equal the
label count and that the last layer input width equal the second-to-last
layer output width plus label_count; each violation fails immediately
with the corresponding fatal assertion message (never a recoverable
result), and the call succeeds exactly when both conditions hold. -/
theorem train_with_labels_preconditions (net : dbn) (X : List (List weight))
    (L : List Nat) (label_count max_epochs : Nat) :
    (train_with_labels net X L label_count max_epochs =
        Except.error "There must be the same number of values than labels" ↔
      X.length ≠ L.length) ∧
    (train_with_labels net X L label_count max_epochs =
        Except.error "There is no room for the labels units" ↔
      (X.length = L.length ∧
        input_size_last net ≠ output_size_snd_last net + label_count)) ∧
    ((∃ t, train_with_labels net X L label_count max_epochs = Except.ok t) ↔
      (X.length = L.length ∧
        input_size_last net = output_size_snd_last net + label_count)) := by
  have hmsg : ("There must be the same number of values than labels" : String) ≠
      "There is no room for the labels units" := by decide
  unfold train_with_labels
  by_cases h1 : X.length = L.length
  · by_cases h2 : input_size_last net = output_size_snd_last net + label_count
    · simp [h1, h2]
    · simp [h1, h2, hmsg]
  · simp [h1, hmsg]

/-- Claim C9 counterexample: with collaborators whose parameter check
fails, svm_train returns false but has already overwritten the stored
problem, so the classifier state is NOT left unchanged. -/
theorem svm_train_overwrites_problem_on_check_failure :
    (svm_train netV9 opsV9 [] [] () stV9).1 = false ∧
    (svm_train netV9 opsV9 [] [] () stV9).2.problem ≠ stV9.problem := by
  decide

/-- Claim C9 (amended): when the parameter validation fails, svm_train and
svm_grid_search return false instead of aborting, and leave the stored
model and the model-loaded flag unchanged; the stored problem, however,
has already been overwritten with the problem built from the features of
the current call. -/
theorem svm_check_failure_returns_false_keeps_model {P M V : Type}
    (net : dbn) (ops : svm_ops P M V) (samples : List (List weight))
    (labs : List Nat) (parameters : V) (n_fold : Nat) (st : svm_state P M) :
    (ops.check (make_problem net ops samples labs st).problem parameters = false →
      svm_train net ops samples labs parameters st =
        (false, { st with problem := ops.mk_problem (samples.map (get_final_activation_probabilities net)) labs net.scale })) ∧
    (ops.check (make_problem net ops samples labs st).problem
        ops.default_parameters = false →
      svm_grid_search net ops samples labs n_fold st =
        (false, { st with problem := ops.mk_problem (samples.map (get_final_activation_probabilities net)) labs net.scale })) := by
  constructor
  · intro h
    simp only [make_problem] at h
    simp [svm_train, make_problem, h]
  · intro h
    simp only [make_problem] at h
    simp [svm_grid_search, make_problem, h]

/-- Witness for the amended claim C9 on the always-failing collaborators:
both calls return false, model and flag keep their old values, the
problem holds the freshly built one. -/
theorem svm_check_failure_witness :
    opsV9.check (make_problem netV9 opsV9 [] [] stV9).problem () = false ∧
    svm_train netV9 opsV9 [] [] () stV9 =
      (false, { stV9 with problem := 1 }) ∧
    svm_grid_search netV9 opsV9 [] [] 5 stV9 =
      (false, { stV9 with problem := 1 }) :=
  ⟨rfl,
    (svm_check_failure_returns_false_keeps_model netV9 opsV9 [] [] () 5 stV9).1 rfl,
    (svm_check_failure_returns_false_keeps_model netV9 opsV9 [] [] () 5 stV9).2 rfl⟩

/-- Invariant of the std::max_element loop: starting from a best index
into the already-scanned segment whose value dominates that segment
(strictly dominating everything before the best index), the result is the
first-occurrence argmax of the whole vector. -/
theorem max_element_index_go_spec : ∀ (xs pre : List weight) (best : Nat)
    (bv : weight), best < pre.length → pre.getD best 0 = bv →
    (∀ j, j < pre.length → pre.getD j 0 ≤ bv) →
    (∀ j, j < best → pre.getD j 0 < bv) →
    (max_element_index_go best bv pre.length xs < (pre ++ xs).length ∧
      (∀ j, j < (pre ++ xs).length →
        (pre ++ xs).getD j 0 ≤
          (pre ++ xs).getD (max_element_index_go best bv pre.length xs) 0) ∧
      (∀ j, j < max_element_index_go best bv pre.length xs →
        (pre ++ xs).getD j 0 <
          (pre ++ xs).getD (max_element_index_go best bv pre.length xs) 0)) := by
  intro xs
  induction xs with
  | nil =>
    intro pre best bv hb hv hle hlt
    simp only [max_element_index_go, List.append_nil]
    refine ⟨hb, ?_, ?_⟩
    · intro j hj
      rw [hv]
      exact hle j hj
    · intro j hj
      rw [hv]
      exact hlt j hj
  | cons y ys ih =>
    intro pre best bv hb hv hle hlt
    have hassoc : pre ++ y :: ys = (pre ++ [y]) ++ ys := by simp
    have hylen : (pre ++ [y]).length = pre.length + 1 := by simp
    have hgety : (pre ++ [y]).getD pre.length 0 = y := by
      rw [List.getD_append_right pre [y] 0 pre.length (le_refl _)]
      simp
    have hgetpre : ∀ j, j < pre.length →
        (pre ++ [y]).getD j 0 = pre.getD j 0 := by
      intro j hj
      exact List.getD_append pre [y] 0 j hj
    show (max_element_index_go best bv pre.length (y :: ys) <
        (pre ++ y :: ys).length ∧ _ ∧ _)
    by_cases hc : bv < y
    · rw [show max_element_index_go best bv pre.length (y :: ys) =
          max_element_index_go pre.length y (pre.length + 1) ys from by
        simp [max_element_index_go, hc]]
      rw [hassoc]
      rw [show pre.length + 1 = (pre ++ [y]).length from hylen.symm]
      refine ih (pre ++ [y]) pre.length y (by simp) hgety ?_ ?_
      · intro j hj
        rw [hylen] at hj
        rcases Nat.lt_succ_iff_lt_or_eq.mp hj with hj2 | hj2
        · rw [hgetpre j hj2]
          exact le_of_lt (lt_of_le_of_lt (hle j hj2) hc)
        · subst hj2
          rw [hgety]
      · intro j hj
        rw [hgetpre j hj]
        exact lt_of_le_of_lt (hle j hj) hc
    · rw [show max_element_index_go best bv pre.length (y :: ys) =
          max_element_index_go best bv (pre.length + 1) ys from by
        simp [max_element_index_go, hc]]
      rw [hassoc]
      rw [show pre.length + 1 = (pre ++ [y]).length from hylen.symm]
      have hb2 : best < (pre ++ [y]).length := by
        rw [hylen]; omega
      have hv2 : (pre ++ [y]).getD best 0 = bv := by
        rw [hgetpre best hb]; exact hv
      refine ih (pre ++ [y]) best bv hb2 hv2 ?_ ?_
      · intro j hj
        rw [hylen] at hj
        rcases Nat.lt_succ_iff_lt_or_eq.mp hj with hj2 | hj2
        · rw [hgetpre j hj2]
          exact hle j hj2
        · subst hj2
          rw [hgety]
          exact le_of_not_lt hc
      · intro j hj
        rw [hgetpre j (lt_trans hj hb)]
        exact hlt j hj

/-- The first-occurrence argmax property of max_element_index on a
nonempty vector. -/
theorem max_element_index_spec (v : List weight) (hv : v ≠ []) :
    max_element_index v < v.length ∧
    (∀ j, j < v.length → v.getD j 0 ≤ v.getD (max_element_index v) 0) ∧
    (∀ j, j < max_element_index v →
      v.getD j 0 < v.getD (max_element_index v) 0) := by
  cases v with
  | nil => cases hv rfl
  | cons x xs =>
    have := max_element_index_go_spec xs [x] 0 x (by simp) (by simp)
      (by intro j hj; simp only [List.length_singleton, Nat.lt_one_iff] at hj;
          subst hj; simp)
      (by intro j hj; omega)
    simpa [max_element_index] using this

/-- Claim C7: predict(sample) is predict_label of
activation_probabilities(sample), the index of its maximum entry with
ties broken by the first occurrence; and predict_label [0.1, 0.9, 0.3]
is 1. -/
theorem predict_is_first_argmax (net : dbn) (s : List weight)
    (hne : activation_probabilities net s ≠ []) :
    predict net s = predict_label (activation_probabilities net s) ∧
    predict net s < (activation_probabilities net s).length ∧
    (∀ j, j < (activation_probabilities net s).length →
      (activation_probabilities net s).getD j 0 ≤
        (activation_probabilities net s).getD (predict net s) 0) ∧
    (∀ j, j < predict net s →
      (activation_probabilities net s).getD j 0 <
        (activation_probabilities net s).getD (predict net s) 0) ∧
    predict_label [0.1, 0.9, 0.3] = 1 := by
  have hspec := max_element_index_spec (activation_probabilities net s) hne
  refine ⟨rfl, hspec.1, hspec.2.1, hspec.2.2, ?_⟩
  norm_num [predict_label, max_element_index, max_element_index_go]

/-- Witness for claim C7 on the one-layer network producing exactly the
activation vector of the example. -/
theorem predict_is_first_argmax_witness :
    activation_probabilities netA7 [0] ≠ [] ∧
    (predict netA7 [0] = predict_label (activation_probabilities netA7 [0]) ∧
      predict netA7 [0] < (activation_probabilities netA7 [0]).length ∧
      (∀ j, j < (activation_probabilities netA7 [0]).length →
        (activation_probabilities netA7 [0]).getD j 0 ≤
          (activation_probabilities netA7 [0]).getD (predict netA7 [0]) 0) ∧
      (∀ j, j < predict netA7 [0] →
        (activation_probabilities netA7 [0]).getD j 0 <
          (activation_probabilities netA7 [0]).getD (predict netA7 [0]) 0) ∧
      predict_label [0.1, 0.9, 0.3] = 1) :=
  ⟨by simp [activation_probabilities, netA7, layerId, activate_chain],
    predict_is_first_argmax netA7 [0]
      (by simp [activation_probabilities, netA7, layerId, activate_chain])⟩

/-- Length of the concatenated full-activation output: the sum of the
layer output widths, when each activation has its declared width. -/
theorem full_segs_flatten_length : ∀ (ls : List Layer) (v : List weight),
    (∀ l ∈ ls, ∀ u, (l.act l.params u).length = l.output_size) →
    ((full_activation_segs ls v).flatten).length =
      (ls.map Layer.output_size).sum := by
  intro ls
  induction ls with
  | nil => intro v h; simp [full_activation_segs]
  | cons l rest ih =>
    intro v h
    simp only [full_activation_segs, List.flatten_cons, List.length_append,
      List.map_cons, List.sum_cons]
    rw [h l (List.mem_cons_self l rest) v,
      ih (l.act l.params v) (fun l2 hl2 u => h l2 (List.mem_cons_of_mem l hl2) u)]

/-- The k-th segment of the concatenated full-activation output is the
activation chain through the first k + 1 layers. -/
theorem full_segs_segment : ∀ (ls : List Layer) (v : List weight) (k : Nat)
    (l : Layer),
    (∀ l2 ∈ ls, ∀ u, (l2.act l2.params u).length = l2.output_size) →
    ls.get? k = some l →
    (((full_activation_segs ls v).flatten).drop
        (((ls.take k).map Layer.output_size).sum)).take l.output_size =
      activate_chain (ls.take (k + 1)) v := by
  intro ls
  induction ls with
  | nil => intro v k l h hget; simp at hget
  | cons l0 rest ih =>
    intro v k l h hget
    cases k with
    | zero =>
      have hl : l = l0 := by simpa using hget.symm
      subst hl
      simp only [List.take_zero, List.map_nil, List.sum_nil, List.drop_zero,
        full_activation_segs, List.flatten_cons]
      have hlen : (l.act l.params v).length = l.output_size :=
        h l (List.mem_cons_self l rest) v
      rw [show ((l :: rest).take 1) = [l] from rfl]
      rw [show activate_chain [l] v = l.act l.params v from rfl]
      rw [← hlen]
      exact List.take_left _ _
    | succ k2 =>
      have hget2 : rest.get? k2 = some l := by simpa using hget
      have hlen : (l0.act l0.params v).length = l0.output_size :=
        h l0 (List.mem_cons_self l0 rest) v
      simp only [List.take_succ_cons, List.map_cons, List.sum_cons,
        full_activation_segs, List.flatten_cons]
      rw [← hlen]
      rw [← List.drop_drop]
      rw [List.drop_left (l0.act l0.params v)
        ((full_activation_segs rest (l0.act l0.params v)).flatten)]
      rw [ih (l0.act l0.params v) k2 l
        (fun l2 hl2 u => h l2 (List.mem_cons_of_mem l0 hl2) u) hget2]
      rfl

/-- The last segment of the full-activation chain is the whole activation
chain. -/
theorem full_segs_getLast : ∀ (ls : List Layer) (v : List weight),
    ls ≠ [] →
    (full_activation_segs ls v).getLast? = some (activate_chain ls v) := by
  intro ls
  induction ls with
  | nil => intro v h; cases h rfl
  | cons l rest ih =>
    intro v _
    cases rest with
    | nil => rfl
    | cons r rs =>
      have := ih (l.act l.params v) (by simp)
      show (l.act l.params v ::
          full_activation_segs (r :: rs) (l.act l.params v)).getLast? = _
      rw [show full_activation_segs (r :: rs) (l.act l.params v) =
            r.act r.params (l.act l.params v) ::
              full_activation_segs rs (r.act r.params (l.act l.params v))
          from rfl]
      rw [List.getLast?_cons_cons]
      rw [show r.act r.params (l.act l.params v) ::
            full_activation_segs rs (r.act r.params (l.act l.params v)) =
            full_activation_segs (r :: rs) (l.act l.params v) from rfl]
      rw [this]
      rfl

/-- Claim C8: full_activation_probabilities runs the forward chain and
concatenates every layer output in stack order: the result width is
full_output_size(), the k-th segment (at offset the sum of the earlier
output widths) is exactly the chain through layers 0..k, and the last
segment is activation_probabilities. -/
theorem full_activation_concatenates (net : dbn) (s : List weight)
    (hlen : ∀ l ∈ net.tuples, ∀ u, (l.act l.params u).length = l.output_size) :
    (full_activation_probabilities net s).length = full_output_size net ∧
    (∀ k l, net.tuples.get? k = some l →
      ((full_activation_probabilities net s).drop
          (((net.tuples.take k).map Layer.output_size).sum)).take l.output_size =
        activate_chain (net.tuples.take (k + 1)) (net.convert_sample s)) ∧
    (net.tuples ≠ [] →
      (full_activation_segs net.tuples (net.convert_sample s)).getLast? =
        some (activation_probabilities net s)) := by
  refine ⟨?_, ?_, ?_⟩
  · exact full_segs_flatten_length net.tuples (net.convert_sample s) hlen
  · intro k l hget
    exact full_segs_segment net.tuples (net.convert_sample s) k l hlen hget
  · intro hne
    exact full_segs_getLast net.tuples (net.convert_sample s) hne

/-- Witness for claim C8 on the two-layer network netW8. -/
theorem full_activation_concatenates_witness :
    (∀ l ∈ netW8.tuples, ∀ u, (l.act l.params u).length = l.output_size) ∧
    ((full_activation_probabilities netW8 [1]).length = full_output_size netW8 ∧
      (∀ k l, netW8.tuples.get? k = some l →
        ((full_activation_probabilities netW8 [1]).drop
            (((netW8.tuples.take k).map Layer.output_size).sum)).take l.output_size =
          activate_chain (netW8.tuples.take (k + 1)) (netW8.convert_sample [1])) ∧
      (netW8.tuples ≠ [] →
        (full_activation_segs netW8.tuples (netW8.convert_sample [1])).getLast? =
          some (activation_probabilities netW8 [1]))) := by
  have h : ∀ l ∈ netW8.tuples, ∀ u, (l.act l.params u).length = l.output_size := by
    intro l hl u
    cases hl with
    | head => rfl
    | tail _ h2 =>
      cases h2 with
      | head => rfl
      | tail _ h3 => cases h3
  exact ⟨h, full_activation_concatenates netW8 [1] h⟩

/-- Setting an element past a front segment sets into the back segment. -/
theorem set_append_of_le : ∀ (a b : List weight) (i : Nat) (x : weight),
    (a ++ b).set (a.length + i) x = a ++ b.set i x := by
  intro a
  induction a with
  | nil => intro b i x; simp
  | cons a0 as ih =>
    intro b i x
    rw [show (a0 :: as).length + i = (as.length + i) + 1 from by
      simp [List.length_cons]; omega]
    show a0 :: ((as ++ b).set (as.length + i) x) = a0 :: (as ++ b.set i x)
    rw [ih b i x]

/-- The one-hot loop writes exactly the interval
[out_size, out_size + label_count) of the row: 1.0 where the index offset
equals the label, 0.0 elsewhere, leaving the rest of the row alone. -/
theorem write_one_hot_spec : ∀ (label_count : Nat) (row : List weight)
    (outS lab : Nat), outS + label_count ≤ row.length →
    write_one_hot outS label_count lab row =
      row.take outS
        ++ (List.range label_count).map (fun j => if lab = j then (1 : weight) else 0)
        ++ row.drop (outS + label_count) := by
  intro label_count
  induction label_count with
  | zero =>
    intro row outS lab h
    simp [write_one_hot]
  | succ n ih =>
    intro row outS lab h
    have hn : outS + n ≤ row.length := by omega
    have hlt : outS + n < row.length := by omega
    have hfold : write_one_hot outS (n + 1) lab row =
        (write_one_hot outS n lab row).set (outS + n)
          (if lab = n then (1 : weight) else 0) := by
      simp [write_one_hot, List.range_succ]
    rw [hfold, ih row outS lab hn]
    have hA : (row.take outS).length = outS := by
      rw [List.length_take]; omega
    have hstep : (row.take outS ++ ((List.range n).map
          (fun j => if lab = j then (1 : weight) else 0) ++ row.drop (outS + n))).set
          (outS + n) (if lab = n then (1 : weight) else 0)
        = row.take outS ++ ((List.range n).map
            (fun j => if lab = j then (1 : weight) else 0)
          ++ (row.drop (outS + n)).set 0 (if lab = n then (1 : weight) else 0)) := by
      have e1 := set_append_of_le (row.take outS)
        ((List.range n).map (fun j => if lab = j then (1 : weight) else 0)
          ++ row.drop (outS + n)) n (if lab = n then (1 : weight) else 0)
      rw [hA] at e1
      rw [e1]
      congr 1
      have e2 := set_append_of_le
        ((List.range n).map (fun j => if lab = j then (1 : weight) else 0))
        (row.drop (outS + n)) 0 (if lab = n then (1 : weight) else 0)
      simpa using e2
    rw [← List.append_assoc] at hstep
    rw [hstep]
    rw [List.range_succ, List.map_append]
    have hsetzero : (row.drop (outS + n)).set 0 (if lab = n then (1 : weight) else 0)
        = (if lab = n then (1 : weight) else 0) :: row.drop (outS + (n + 1)) := by
      rw [List.drop_eq_getElem_cons hlt]
      rfl
    rw [hsetzero]
    simp [List.append_assoc]

/-- The copy loop fills the front of the buffer with the source and keeps
the buffer tail. -/
theorem overwrite_eq_append : ∀ (a base : List weight), a.length ≤ base.length →
    overwrite base a = a ++ base.drop a.length := by
  intro a
  induction a with
  | nil => intro base h; simp [overwrite]
  | cons x xs ih =>
    intro base h
    cases base with
    | nil => simp at h
    | cons b bs =>
      show x :: overwrite bs xs = (x :: xs) ++ bs.drop xs.length
      rw [ih bs (by simpa using h)]
      rfl

/-- The label loop writes the i-th label one-hot into the i-th row. -/
theorem apply_labels_get? : ∀ (rows : List (List weight)) (labs : List Nat)
    (outS lc i : Nat) (r : List weight) (lab : Nat),
    rows.get? i = some r → labs.get? i = some lab →
    (apply_labels outS lc rows labs).get? i = some (write_one_hot outS lc lab r) := by
  intro rows
  induction rows with
  | nil => intro labs outS lc i r lab h _; simp at h
  | cons r0 rs ih =>
    intro labs outS lc i r lab hr hl
    cases labs with
    | nil => simp at hl
    | cons lab0 ls =>
      cases i with
      | zero =>
        have h1 : r0 = r := by simpa using hr
        have h2 : lab0 = lab := by simpa using hl
        subst h1; subst h2
        rfl
      | succ i2 =>
        have hr2 : rs.get? i2 = some r := by simpa using hr
        have hl2 : ls.get? i2 = some lab := by simpa using hl
        show (write_one_hot outS lc lab0 r0 :: apply_labels outS lc rs ls).get? (i2 + 1) = _
        rw [List.get?_cons_succ]
        exact ih ls outS lc i2 r lab hr2 hl2

/-- Row i of the enlarged buffer: the activation row followed by the
one-hot encoding of label i. -/
theorem big_next_a_row (q0 : weight) (label_count outS : Nat)
    (next_a : List (List weight)) (labs : List Nat) (i : Nat)
    (a : List weight) (lab : Nat)
    (ha : next_a.get? i = some a) (hl : labs.get? i = some lab)
    (hal : a.length = outS) :
    (big_next_a q0 label_count outS next_a labs).get? i =
      some (a ++ (List.range label_count).map
        (fun j => if lab = j then (1 : weight) else 0)) := by
  unfold big_next_a
  have hmap : (next_a.map
      (fun a2 => overwrite (List.replicate (outS + label_count) q0) a2)).get? i =
      some (overwrite (List.replicate (outS + label_count) q0) a) := by
    rw [List.get?_map, ha]; rfl
  rw [apply_labels_get? _ labs outS label_count i _ lab hmap hl]
  have hov : overwrite (List.replicate (outS + label_count) q0) a =
      a ++ List.replicate label_count q0 := by
    rw [overwrite_eq_append a _ (by simp only [List.length_replicate, hal]; omega)]
    rw [hal, List.drop_replicate,
      show outS + label_count - outS = label_count from by omega]
  rw [hov]
  have hlen2 : (a ++ List.replicate label_count q0).length = outS + label_count := by
    simp [hal]
  rw [write_one_hot_spec label_count _ outS lab (le_of_eq hlen2.symm)]
  rw [show (a ++ List.replicate label_count q0).take outS = a from by
    rw [← hal]; exact List.take_left a _]
  rw [show (a ++ List.replicate label_count q0).drop (outS + label_count) = [] from
    List.drop_eq_nil_of_le (le_of_eq hlen2)]
  simp

/-- Unfolding of the train_with_labels recursion strictly below the
second-to-last layer: train, activate, recurse with the plain
activations. -/
theorem twl_go_cons_of_two_le (l : Layer) (ls : List Layer) (h : 2 ≤ ls.length)
    (q0 : weight) (lc : Nat) (input : List (List weight)) (labs : List Nat) :
    train_with_labels_go q0 lc (l :: ls) input labs =
      input :: train_with_labels_go q0 lc ls (input.map (l.act l.params)) labs := by
  match ls, h with
  | a :: b :: t, _ => rfl

/-- The last training input of the train_with_labels recursion is the
enlarged buffer built from the second-to-last layer activations of the
chained input and the labels. -/
theorem twl_go_getLast : ∀ (front : List Layer) (lsnd llast : Layer)
    (q0 : weight) (lc : Nat) (X : List (List weight)) (L : List Nat),
    (train_with_labels_go q0 lc (front ++ [lsnd, llast]) X L).getLast? =
      some (big_next_a q0 lc lsnd.output_size
        ((X.map (fun x => activate_chain front x)).map (lsnd.act lsnd.params)) L) := by
  intro front
  induction front with
  | nil =>
    intro lsnd llast q0 lc X L
    show (train_with_labels_go q0 lc [lsnd, llast] X L).getLast? = _
    rw [show train_with_labels_go q0 lc [lsnd, llast] X L =
        [X, big_next_a q0 lc lsnd.output_size (X.map (lsnd.act lsnd.params)) L]
      from rfl]
    rw [show ([X, big_next_a q0 lc lsnd.output_size (X.map (lsnd.act lsnd.params)) L]).getLast?
        = some (big_next_a q0 lc lsnd.output_size (X.map (lsnd.act lsnd.params)) L)
      from rfl]
    have hid : X.map (fun x => activate_chain [] x) = X := by
      simp [activate_chain]
    rw [hid]
  | cons f fr ih =>
    intro lsnd llast q0 lc X L
    rw [show (f :: fr) ++ [lsnd, llast] = f :: (fr ++ [lsnd, llast]) from rfl]
    rw [twl_go_cons_of_two_le f (fr ++ [lsnd, llast]) (by simp) q0 lc X L]
    have htail := ih lsnd llast q0 lc (X.map (f.act f.params)) L
    cases htl : train_with_labels_go q0 lc (fr ++ [lsnd, llast])
        (X.map (f.act f.params)) L with
    | nil => rw [htl] at htail; simp at htail
    | cons t ts =>
      rw [htl] at htail
      rw [List.getLast?_cons_cons, htail]
      have hfun : (fun x => activate_chain (f :: fr) x)
          = ((fun x => activate_chain fr x) ∘ (f.act f.params)) := by
        funext x
        simp [activate_chain]
      rw [hfun, ← List.map_map]

/-- The one-hot segment read back entrywise: 1.0 at the label offset, 0.0
at every other offset. -/
theorem range_map_one_hot_getD (lc j lab : Nat) (h : j < lc) :
    (((List.range lc).map (fun j2 => if lab = j2 then (1 : weight) else 0)).getD j 0)
      = if lab = j then (1 : weight) else 0 := by
  rw [List.getD_eq_getElem _ _ (by simpa using h)]
  simp

/-- Claim C3: under the preconditions, train_with_labels succeeds and the
buffer it passes to the last layer has, for every sample i, a row of
width output_size + label_count whose front is the second-to-last layer
activation of that sample and whose trailing label_count entries are the
one-hot encoding of label i: 1.0 at the offset equal to the label value
and 0.0 at every other offset. -/
theorem train_with_labels_one_hot (net : dbn) (front : List Layer)
    (lsnd llast : Layer) (X : List (List weight)) (L : List Nat)
    (label_count max_epochs : Nat)
    (h1 : net.tuples = front ++ [lsnd, llast])
    (hcnt : X.length = L.length)
    (hwidth : input_size_last net = output_size_snd_last net + label_count)
    (hact : ∀ v, (lsnd.act lsnd.params v).length = lsnd.output_size) :
    ∃ T, train_with_labels net X L label_count max_epochs = Except.ok T ∧
      ∀ i x lab, X.get? i = some x → L.get? i = some lab →
        ∃ row, (T.getLast?.getD []).get? i = some row ∧
          row.length = lsnd.output_size + label_count ∧
          row.take lsnd.output_size =
            lsnd.act lsnd.params (activate_chain front (net.convert_sample x)) ∧
          row.drop lsnd.output_size =
            (List.range label_count).map
              (fun j => if lab = j then (1 : weight) else 0) ∧
          (∀ j, j < label_count → (row.drop lsnd.output_size).getD j 0 =
            if lab = j then (1 : weight) else 0) := by
  refine ⟨train_with_labels_go net.prep_init label_count net.tuples
    (X.map net.convert_sample) L, ?_, ?_⟩
  · simp [train_with_labels, hcnt, hwidth]
  · intro i x lab hx hlab
    have hconv : (X.map net.convert_sample).get? i = some (net.convert_sample x) := by
      rw [List.get?_map, hx]; rfl
    have hgl := twl_go_getLast front lsnd llast net.prep_init label_count
      (X.map net.convert_sample) L
    rw [h1, hgl]
    have ha : (((X.map net.convert_sample).map
        (fun x2 => activate_chain front x2)).map (lsnd.act lsnd.params)).get? i =
        some (lsnd.act lsnd.params (activate_chain front (net.convert_sample x))) := by
      rw [List.get?_map, List.get?_map, hconv]; rfl
    have hrow := big_next_a_row net.prep_init label_count lsnd.output_size
      (((X.map net.convert_sample).map (fun x2 => activate_chain front x2)).map
        (lsnd.act lsnd.params)) L i
      (lsnd.act lsnd.params (activate_chain front (net.convert_sample x))) lab
      ha hlab (hact (activate_chain front (net.convert_sample x)))
    refine ⟨lsnd.act lsnd.params (activate_chain front (net.convert_sample x))
        ++ (List.range label_count).map
          (fun j => if lab = j then (1 : weight) else 0), ?_, ?_, ?_, ?_, ?_⟩
    · simpa using hrow
    · simp [hact]
    · rw [← hact (activate_chain front (net.convert_sample x))]
      exact List.take_left _ _
    · rw [← hact (activate_chain front (net.convert_sample x))]
      exact List.drop_left _ _
    · intro j hj
      rw [← hact (activate_chain front (net.convert_sample x)), List.drop_left]
      exact range_map_one_hot_getD label_count j lab hj

/-- Witness for claim C3 on netT3 with one sample, label 1 of 3; the
appended one-hot segment is exactly [0.0, 1.0, 0.0]. -/
theorem train_with_labels_one_hot_witness :
    ((List.range 3).map (fun j => if 1 = j then (1 : weight) else 0)
      = [0, 1, 0]) ∧
    (∃ T, train_with_labels netT3 [[0]] [1] 3 5 = Except.ok T ∧
      ∀ i x lab, ([[0]] : List (List weight)).get? i = some x →
        ([1] : List Nat).get? i = some lab →
        ∃ row, (T.getLast?.getD []).get? i = some row ∧
          row.length = layerSnd3.output_size + 3 ∧
          row.take layerSnd3.output_size =
            layerSnd3.act layerSnd3.params
              (activate_chain [] (netT3.convert_sample x)) ∧
          row.drop layerSnd3.output_size =
            (List.range 3).map (fun j => if lab = j then (1 : weight) else 0) ∧
          (∀ j, j < 3 → (row.drop layerSnd3.output_size).getD j 0 =
            if lab = j then (1 : weight) else 0)) :=
  ⟨by decide,
    train_with_labels_one_hot netT3 [] layerSnd3 layerLast3 [[0]] [1] 3 5
      rfl rfl rfl (fun _ => rfl)⟩

/-- Unfolding of the predict_labels recursion strictly below the
second-to-last layer: activate hidden and recurse. -/
theorem plg_cons_of_two_le (l : Layer) (ls : List Layer) (h : 2 ≤ ls.length)
    (q0 : weight) (lc : Nat) (v : List weight) :
    predict_labels_go q0 lc (l :: ls) v =
      predict_labels_go q0 lc ls (l.act l.params v) := by
  match ls, h with
  | a :: b :: t, _ => rfl

/-- The predict_labels recursion is the plain hidden-activation chain
through all layers but the last, the 0.1-augmentation of the
second-to-last output, then one bidirectional step (activate hidden,
reconstruct visible) at the last layer. -/
theorem predict_labels_go_eq : ∀ (front : List Layer) (lsnd llast : Layer)
    (q0 : weight) (lc : Nat) (v : List weight),
    predict_labels_go q0 lc (front ++ [lsnd, llast]) v =
      llast.act_visible llast.params (llast.act llast.params
        (predict_big_next_a q0 lc lsnd.output_size
          (activate_chain (front ++ [lsnd]) v))) := by
  intro front
  induction front with
  | nil => intro lsnd llast q0 lc v; rfl
  | cons f fr ih =>
    intro lsnd llast q0 lc v
    show predict_labels_go q0 lc (f :: (fr ++ [lsnd, llast])) v = _
    rw [plg_cons_of_two_le f (fr ++ [lsnd, llast]) (by simp) q0 lc v]
    rw [ih lsnd llast q0 lc (f.act f.params v)]
    rfl

/-- The augmented single-sample buffer splits as the activation followed
by the constant-0.1 padding. -/
theorem predict_big_next_a_spec (q0 : weight) (lc outS : Nat) (a : List weight)
    (ha : a.length = outS) :
    predict_big_next_a q0 lc outS a = a ++ List.replicate lc (0.1 : weight) ∧
    (predict_big_next_a q0 lc outS a).take outS = a ∧
    (predict_big_next_a q0 lc outS a).drop outS =
      List.replicate lc (0.1 : weight) := by
  have hov : overwrite (List.replicate (outS + lc) q0) a =
      a ++ List.replicate lc q0 := by
    rw [overwrite_eq_append a _ (by simp only [List.length_replicate, ha]; omega)]
    rw [ha, List.drop_replicate, show outS + lc - outS = lc from by omega]
  have hmain : predict_big_next_a q0 lc outS a =
      a ++ List.replicate lc (0.1 : weight) := by
    unfold predict_big_next_a
    rw [hov]
    rw [show (a ++ List.replicate lc q0).take outS = a from by
      rw [← ha]; exact List.take_left a _]
    rw [show (a ++ List.replicate lc q0).length = outS + lc from by simp [ha]]
    rw [show outS + lc - outS = lc from by omega]
  refine ⟨hmain, ?_, ?_⟩
  · rw [hmain, ← ha]
    exact List.take_left a _
  · rw [hmain, ← ha]
    exact List.drop_left a _

/-- The activation chain through the layers up to and including the
second-to-last one ends with that layer. -/
theorem activate_chain_concat (front : List Layer) (lsnd : Layer)
    (v : List weight) :
    activate_chain (front ++ [lsnd]) v =
      lsnd.act lsnd.params (activate_chain front v) := by
  simp [activate_chain, List.foldl_append]

/-- Claim C10: in predict_labels, the enlarged input built for the last
layer at the second-to-last layer carries the second-to-last hidden
activation in its first output_size entries and the constant 0.1 (not 0.0
and not a one-hot) in each of its trailing label_count entries, and it is
exactly what the bidirectional query of the last layer receives. -/
theorem predict_labels_aug_constant (net : dbn) (front : List Layer)
    (lsnd llast : Layer) (s : List weight) (label_count : Nat)
    (h1 : net.tuples = front ++ [lsnd, llast])
    (hact : ∀ v, (lsnd.act lsnd.params v).length = lsnd.output_size) :
    predict_labels_go net.prep_init label_count net.tuples (net.convert_sample s) =
      llast.act_visible llast.params (llast.act llast.params
        (activate_chain (front ++ [lsnd]) (net.convert_sample s)
          ++ List.replicate label_count (0.1 : weight))) ∧
    (predict_big_next_a net.prep_init label_count lsnd.output_size
        (activate_chain (front ++ [lsnd]) (net.convert_sample s))).take
        lsnd.output_size =
      activate_chain (front ++ [lsnd]) (net.convert_sample s) ∧
    (predict_big_next_a net.prep_init label_count lsnd.output_size
        (activate_chain (front ++ [lsnd]) (net.convert_sample s))).drop
        lsnd.output_size =
      List.replicate label_count (0.1 : weight) := by
  have ha : (activate_chain (front ++ [lsnd]) (net.convert_sample s)).length =
      lsnd.output_size := by
    rw [activate_chain_concat]
    exact hact (activate_chain front (net.convert_sample s))
  have hspec := predict_big_next_a_spec net.prep_init label_count
    lsnd.output_size (activate_chain (front ++ [lsnd]) (net.convert_sample s)) ha
  refine ⟨?_, hspec.2.1, hspec.2.2⟩
  rw [h1, predict_labels_go_eq front lsnd llast, hspec.1]

/-- Witness for claim C10 on netP5 with 2 label units. -/
theorem predict_labels_aug_constant_witness :
    (netP5.tuples = [] ++ [layerSnd5, layerLast5]) ∧
    (predict_labels_go netP5.prep_init 2 netP5.tuples (netP5.convert_sample [0]) =
      layerLast5.act_visible layerLast5.params (layerLast5.act layerLast5.params
        (activate_chain ([] ++ [layerSnd5]) (netP5.convert_sample [0])
          ++ List.replicate 2 (0.1 : weight))) ∧
    (predict_big_next_a netP5.prep_init 2 layerSnd5.output_size
        (activate_chain ([] ++ [layerSnd5]) (netP5.convert_sample [0]))).take
        layerSnd5.output_size =
      activate_chain ([] ++ [layerSnd5]) (netP5.convert_sample [0]) ∧
    (predict_big_next_a netP5.prep_init 2 layerSnd5.output_size
        (activate_chain ([] ++ [layerSnd5]) (netP5.convert_sample [0]))).drop
        layerSnd5.output_size =
      List.replicate 2 (0.1 : weight)) :=
  ⟨rfl, predict_labels_aug_constant netP5 [] layerSnd5 layerLast5 [0] 2
    rfl (fun _ => rfl)⟩

/-- Claim C5: predict_labels propagates the sample through layers
0..layers-2 by the same hidden-activation chain as activation
probabilities (activate_chain over all but the last layer, with the
augmentation of the second-to-last output), performs the bidirectional
step (activate hidden, then reconstruct visible) only at the last layer,
and returns the first-occurrence argmax over only the trailing
label_count entries of the reconstruction, as an index relative to that
trailing segment. -/
theorem predict_labels_forward_chain (net : dbn) (front : List Layer)
    (lsnd llast : Layer) (s : List weight) (label_count : Nat)
    (h1 : net.tuples = front ++ [lsnd, llast])
    (hwidth : llast.input_size = lsnd.output_size + label_count) :
    predict_labels net s label_count =
      Except.ok (max_element_index
        ((llast.act_visible llast.params (llast.act llast.params
            (predict_big_next_a net.prep_init label_count lsnd.output_size
              (activate_chain (front ++ [lsnd]) (net.convert_sample s))))).drop
          ((llast.act_visible llast.params (llast.act llast.params
              (predict_big_next_a net.prep_init label_count lsnd.output_size
                (activate_chain (front ++ [lsnd]) (net.convert_sample s))))).length
            - label_count))) := by
  have hlast : input_size_last net = llast.input_size := by
    rw [input_size_last, h1,
      List.getLast?_append_of_ne_nil front (by simp : ([lsnd, llast] : List Layer) ≠ [])]
    rfl
  have hsnd : output_size_snd_last net = lsnd.output_size := by
    rw [output_size_snd_last, h1]
    rw [show (front ++ [lsnd, llast]).length - 2 = front.length from by
      simp]
    rw [List.get?_append_right (le_refl front.length)]
    simp
  have hpre : input_size_last net = output_size_snd_last net + label_count := by
    rw [hlast, hsnd, hwidth]
  rw [predict_labels, if_neg (by rw [hpre]; exact fun h => h rfl)]
  rw [h1, predict_labels_go_eq front lsnd llast]

/-- Witness for claim C5 on netP5 with 2 label units. -/
theorem predict_labels_forward_chain_witness :
    (netP5.tuples = [] ++ [layerSnd5, layerLast5] ∧
      layerLast5.input_size = layerSnd5.output_size + 2) ∧
    predict_labels netP5 [0] 2 =
      Except.ok (max_element_index
        ((layerLast5.act_visible layerLast5.params (layerLast5.act layerLast5.params
            (predict_big_next_a netP5.prep_init 2 layerSnd5.output_size
              (activate_chain ([] ++ [layerSnd5]) (netP5.convert_sample [0]))))).drop
          ((layerLast5.act_visible layerLast5.params (layerLast5.act layerLast5.params
              (predict_big_next_a netP5.prep_init 2 layerSnd5.output_size
                (activate_chain ([] ++ [layerSnd5]) (netP5.convert_sample [0]))))).length
            - 2))) :=
  ⟨⟨rfl, rfl⟩,
    predict_labels_forward_chain netP5 [] layerSnd5 layerLast5 [0] 2 rfl rfl⟩

/-- The persisted stream of the layer stack: exactly the non-pooling
layers, in stack order, one parameter block each. -/
theorem store_layout : ∀ (ls : List Layer),
    (ls.map store_layer).flatten =
      (ls.filter (fun l => !l.is_pooling)).map
        (fun l => StoreItem.layer_block l.params) := by
  intro ls
  induction ls with
  | nil => rfl
  | cons l rest ih =>
    by_cases hp : l.is_pooling
    · simp [store_layer, hp, ih]
    · simp [store_layer, hp, ih]

/-- Reading back a stored stack into an identically-shaped stack whose
parameters were replaced: every non-pooling layer gets its stored
parameters back, pooling layers are not touched, and the stream past the
layer blocks is left for the classifier segment. -/
theorem load_layers_store_round : ∀ (ls : List Layer) (ps : List (List weight))
    (tail : List StoreItem), ps.length = ls.length →
    load_layers (List.zipWith (fun l p => { l with params := p }) ls ps)
        ((ls.map store_layer).flatten ++ tail) =
      some (List.zipWith
        (fun l p => if l.is_pooling then { l with params := p } else l) ls ps,
        tail) := by
  intro ls
  induction ls with
  | nil =>
    intro ps tail h
    have hps : ps = [] := List.length_eq_zero.mp h
    subst hps
    rfl
  | cons l rest ih =>
    intro ps tail h
    cases ps with
    | nil => simp at h
    | cons p pr =>
      have hlen : pr.length = rest.length := by simpa using h
      have hih := ih pr tail hlen
      by_cases hp : l.is_pooling
      · show load_layers ({ l with params := p } ::
            List.zipWith (fun l p => { l with params := p }) rest pr)
            ((store_layer l ++ (rest.map store_layer).flatten) ++ tail) = _
        rw [show store_layer l = [] from by simp [store_layer, hp]]
        rw [List.nil_append]
        rw [show load_layers ({ l with params := p } ::
            List.zipWith (fun l p => { l with params := p }) rest pr)
            ((rest.map store_layer).flatten ++ tail) =
          (match load_layers
              (List.zipWith (fun l p => { l with params := p }) rest pr)
              ((rest.map store_layer).flatten ++ tail) with
            | some (ls2, st2) => some ({ l with params := p } :: ls2, st2)
            | none => none) from by
          simp [load_layers, hp]]
        rw [hih]
        rw [List.zipWith_cons_cons, if_pos hp]
      · show load_layers ({ l with params := p } ::
            List.zipWith (fun l p => { l with params := p }) rest pr)
            ((store_layer l ++ (rest.map store_layer).flatten) ++ tail) = _
        rw [show store_layer l = [StoreItem.layer_block l.params] from by
          simp [store_layer, hp]]
        rw [show ([StoreItem.layer_block l.params]
            ++ (rest.map store_layer).flatten) ++ tail =
          StoreItem.layer_block l.params
            :: ((rest.map store_layer).flatten ++ tail) from by simp]
        rw [show load_layers ({ l with params := p } ::
            List.zipWith (fun l p => { l with params := p }) rest pr)
            (StoreItem.layer_block l.params
              :: ((rest.map store_layer).flatten ++ tail)) =
          (match load_layers
              (List.zipWith (fun l p => { l with params := p }) rest pr)
              ((rest.map store_layer).flatten ++ tail) with
            | some (ls2, st2) => some ({ l with params := l.params } :: ls2, st2)
            | none => none) from by
          simp [load_layers, hp]]
        rw [hih]
        rw [List.zipWith_cons_cons, if_neg hp]

/-- Restored parameters do not change the activation chain: non-pooling
layers got their original parameters back, pooling layers are
parameter-free (their activation ignores the block). -/
theorem activate_chain_restore : ∀ (ls : List Layer) (ps : List (List weight))
    (v : List weight), ps.length = ls.length →
    (∀ l ∈ ls, l.is_pooling = true → ∀ p u, l.act p u = l.act l.params u) →
    activate_chain (List.zipWith
        (fun l p => if l.is_pooling then { l with params := p } else l) ls ps) v =
      activate_chain ls v := by
  intro ls
  induction ls with
  | nil => intro ps v _ _; rfl
  | cons l rest ih =>
    intro ps v h hpool
    cases ps with
    | nil => simp at h
    | cons p pr =>
      have hlen : pr.length = rest.length := by simpa using h
      have hpool2 : ∀ l2 ∈ rest, l2.is_pooling = true →
          ∀ p2 u, l2.act p2 u = l2.act l2.params u :=
        fun l2 hl2 => hpool l2 (List.mem_cons_of_mem l hl2)
      by_cases hp : l.is_pooling
      · rw [List.zipWith_cons_cons, if_pos hp]
        show activate_chain (List.zipWith _ rest pr) (l.act p v) =
          activate_chain rest (l.act l.params v)
        rw [hpool l (List.mem_cons_self l rest) hp p v]
        exact ih pr (l.act l.params v) hlen hpool2
      · rw [List.zipWith_cons_cons, if_neg hp]
        show activate_chain (List.zipWith _ rest pr) (l.act l.params v) =
          activate_chain rest (l.act l.params v)
        exact ih pr (l.act l.params v) hlen hpool2

/-- Claim C6: store writes the non-pooling parameter blocks in stack order
(pooling layers contribute nothing) followed by the classifier segment;
load into an identically-shaped network (here: the same network with all
parameter blocks replaced) reads them back in that order without touching
pooling layers, restores the classifier state, and the reloaded network
computes the same activation_probabilities on every sample. -/
theorem store_load_round_trip (net : dbn) (ps : List (List weight))
    (hlen : ps.length = net.tuples.length)
    (hpool : ∀ l ∈ net.tuples, l.is_pooling = true →
      ∀ p v, l.act p v = l.act l.params v) :
    store net = (net.tuples.filter (fun l => !l.is_pooling)).map
        (fun l => StoreItem.layer_block l.params)
      ++ [StoreItem.svm_block (if net.svm_loaded then some net.svm_model else none)] ∧
    ∃ net2, load (replace_params net ps) (store net) = some net2 ∧
      (∀ s, activation_probabilities net2 s = activation_probabilities net s) ∧
      net2.svm_loaded = net.svm_loaded ∧
      (net.svm_loaded = true → net2.svm_model = net.svm_model) := by
  have hround := load_layers_store_round net.tuples ps
    [StoreItem.svm_block (if net.svm_loaded then some net.svm_model else none)]
    hlen
  constructor
  · rw [store, store_layout]
  · refine ⟨{ replace_params net ps with tuples := List.zipWith (fun l p => if l.is_pooling then { l with params := p } else l) net.tuples ps, svm_loaded := (if net.svm_loaded then some net.svm_model else none).isSome, svm_model := (if net.svm_loaded then some net.svm_model else none).getD (replace_params net ps).svm_model }, ?_, ?_, ?_, ?_⟩
    · rw [show load (replace_params net ps) (store net) =
          (match load_layers
              (List.zipWith (fun l p => { l with params := p }) net.tuples ps)
              ((net.tuples.map store_layer).flatten
                ++ [StoreItem.svm_block
                  (if net.svm_loaded then some net.svm_model else none)]) with
            | some (ls, StoreItem.svm_block m :: _) =>
              some { replace_params net ps with tuples := ls, svm_loaded := m.isSome, svm_model := m.getD (replace_params net ps).svm_model }
            | _ => none) from rfl]
      rw [hround]
    · intro s
      show activate_chain (List.zipWith
          (fun l p => if l.is_pooling then { l with params := p } else l)
          net.tuples ps) (net.convert_sample s) =
        activate_chain net.tuples (net.convert_sample s)
      exact activate_chain_restore net.tuples ps (net.convert_sample s) hlen hpool
    · show (if net.svm_loaded then some net.svm_model else none).isSome
        = net.svm_loaded
      cases hsvm : net.svm_loaded <;> simp [hsvm]
    · intro hsvm
      show (if net.svm_loaded then some net.svm_model else none).getD
          (replace_params net ps).svm_model = net.svm_model
      rw [hsvm]
      rfl

/-- Witness for claim C6 on netS6 (one non-pooling layer whose activation
uses its parameters, one pooling layer, a trained classifier model) with
replacement blocks psS6. -/
theorem store_load_round_trip_witness :
    psS6.length = netS6.tuples.length ∧
    (store netS6 = (netS6.tuples.filter (fun l => !l.is_pooling)).map
        (fun l => StoreItem.layer_block l.params)
      ++ [StoreItem.svm_block
        (if netS6.svm_loaded then some netS6.svm_model else none)] ∧
    ∃ net2, load (replace_params netS6 psS6) (store netS6) = some net2 ∧
      (∀ s, activation_probabilities net2 s = activation_probabilities netS6 s) ∧
      net2.svm_loaded = netS6.svm_loaded ∧
      (netS6.svm_loaded = true → net2.svm_model = netS6.svm_model)) := by
  have hpool : ∀ l ∈ netS6.tuples, l.is_pooling = true →
      ∀ p v, l.act p v = l.act l.params v := by
    intro l hl
    cases hl with
    | head => intro hp; exact absurd hp (by decide)
    | tail _ h2 =>
      cases h2 with
      | head => intro _ p v; rfl
      | tail _ h3 => cases h3
  exact ⟨rfl, store_load_round_trip netS6 psS6 rfl hpool⟩

end Dll
